import Mathlib

/-!
Verification of the malformed-JSON recovery pipeline of the InternVL
receipt-extraction harness.

The development shallowly embeds, over `List Char`:
  * `internvl/extraction/json_extraction_fixed.py`:
    `extract_json_from_text`, `_try_parse_with_cleaning`,
    `_reconstruct_malformed_json`, `_ultra_clean_json`;
  * `internvl/extraction/normalization.py`:
    `normalize_date`, `normalize_store_name`, `normalize_number`,
    `post_process_prediction` (confidence scoring disabled, which is the
    environment default).

Python strings are modelled as `List Char`; the regular expressions of the
source are compiled by hand into explicit scanning functions whose
semantics (leftmost, non-overlapping, lazy/greedy quantifiers, MULTILINE
`$`) follow Python's `re` module on the concrete patterns involved.
Character classes (`\w`, `\s`, `[a-z]`, ...) are modelled over ASCII, the
alphabet of every input the claims mention.
-/

namespace InternVL

/-- ASCII decimal digit, Python `\d` restricted to ASCII. -/
def isDigitC (c : Char) : Bool :=
  48 ≤ c.toNat && c.toNat ≤ 57

/-- Python `\w` over ASCII: letters, digits and underscore. -/
def isWordC (c : Char) : Bool :=
  isDigitC c || (65 ≤ c.toNat && c.toNat ≤ 90) || (97 ≤ c.toNat && c.toNat ≤ 122) || c = '_'

/-- Python `\s` over ASCII: space, tab, newline, carriage return,
vertical tab and form feed. -/
def isPySpace (c : Char) : Bool :=
  c = ' ' || c = '\t' || c = '\n' || c = '\r' || c.toNat = 11 || c.toNat = 12

/-- `[a-z]` of the source's regexes. -/
def isLowerAZ (c : Char) : Bool :=
  97 ≤ c.toNat && c.toNat ≤ 122

/-- `[A-Z]` of the source's regexes. -/
def isUpperAZ (c : Char) : Bool :=
  65 ≤ c.toNat && c.toNat ≤ 90

/-- `[a-zA-Z_]` of the source's regexes. -/
def isAlphaUnd (c : Char) : Bool :=
  isLowerAZ c || isUpperAZ c || c = '_'

/-- Characters of the numeric-run class `[\d,.]` of `normalize_number`. -/
def isNumRunC (c : Char) : Bool :=
  isDigitC c || c = ',' || c = '.'

/-- ASCII lower-casing, Python `str.lower` on the ASCII inputs involved. -/
def toLowerC (c : Char) : Char :=
  if isUpperAZ c then Char.ofNat (c.toNat + 32) else c

/-- ASCII upper-casing, Python `str.upper` on the ASCII inputs involved. -/
def toUpperC (c : Char) : Char :=
  if isLowerAZ c then Char.ofNat (c.toNat - 32) else c

/-- The decimal digit character for `n < 10`. -/
def digitChar (n : Nat) : Char :=
  Char.ofNat (48 + n)

/-- Decimal digit string, fuel-driven so that the kernel can evaluate it;
`natDigits` supplies fuel `n + 1`, more than the number of digits. -/
def natDigitsAux : Nat → Nat → List Char
  | 0, _ => []
  | fuel + 1, n =>
    if n < 10 then [digitChar n]
    else natDigitsAux fuel (n / 10) ++ [digitChar (n % 10)]

/-- Decimal digit string of a natural number (`"0"` for zero). -/
def natDigits (n : Nat) : List Char :=
  natDigitsAux (n + 1) n

/-- Value of a decimal digit string (the left fold Python's `int` performs). -/
def digitsToNat (l : List Char) : Nat :=
  l.foldl (fun a c => a * 10 + (c.toNat - 48)) 0

/-- Two-digit, zero-padded rendering of `n < 100`. -/
def pad2 (n : Nat) : List Char :=
  if n < 10 then ['0', digitChar n] else natDigits n

/-- Does `pre` start `l`? -/
def startsWithL : List Char → List Char → Bool
  | [], _ => true
  | _ :: _, [] => false
  | p :: ps, c :: cs => p = c && startsWithL ps cs

/-- Does `pat` occur as a contiguous substring of `l` (Python `in`)? -/
def hasSub (pat : List Char) : List Char → Bool
  | [] => startsWithL pat []
  | c :: cs => startsWithL pat (c :: cs) || hasSub pat cs

/-- Python `str.strip`: drop leading and trailing whitespace. -/
def stripWs (l : List Char) : List Char :=
  ((l.dropWhile isPySpace).reverse.dropWhile isPySpace).reverse

/-- Python `str.rstrip(",")`: drop trailing commas. -/
def rstripComma (l : List Char) : List Char :=
  (l.reverse.dropWhile (fun c => c = ',')).reverse

/-- Split a character list at every occurrence of `sep`, Python
`str.split(sep)` for a one-character separator. -/
def splitOnC (sep : Char) : List Char → List (List Char)
  | [] => [[]]
  | c :: t =>
    if c = sep then [] :: splitOnC sep t
    else
      match splitOnC sep t with
      | [] => [[c]]
      | g :: gs => (c :: g) :: gs

/-- JSON values as Python's `json` module sees them.  Numbers keep their raw
lexeme: no claim of this development inspects a decoded numeric value. -/
inductive Json where
  | null : Json
  | jbool : Bool → Json
  | jnum : List Char → Json
  | jstr : List Char → Json
  | jarr : List Json → Json
  | jobj : List (List Char × Json) → Json

/-- Lookup in a JSON object's key/value list (Python `dict` access order:
first binding wins; the builders below never duplicate keys). -/
def jlookup (k : List Char) : List (List Char × Json) → Option Json
  | [] => none
  | (k', v) :: t => if k' = k then some v else jlookup k t

/-- Python `dict` assignment `d[k] = v`: update in place if the key exists,
otherwise append, preserving insertion order. -/
def dinsert (k : List Char) (v : Json) : List (List Char × Json) → List (List Char × Json)
  | [] => [(k, v)]
  | (k', v') :: t => if k' = k then (k, v) :: t else (k', v') :: dinsert k v t

/-! ### `_ultra_clean_json` — sanitizer and structural repairer

`_ultra_clean_json` first replaces control characters (keeping tab, newline
and carriage return) and DEL by a space, then applies eight `re.sub`
substitutions in order, collapses runs of spaces, and finally appends a
single `'}'` (resp. `']'`) when opening braces (resp. brackets) outnumber
closing ones. -/

/-- `sanitizeChar`: step 1 of `_ultra_clean_json` on one character. -/
def sanitizeChar (c : Char) : Char :=
  if c.toNat < 32 then
    if c = '\t' || c = '\n' || c = '\r' then c else ' '
  else if c.toNat = 127 then ' '
  else c

/-- Step 1 of `_ultra_clean_json`: character sanitization. -/
def sanitizeText (s : List Char) : List Char := s.map sanitizeChar

/-- `re.sub`, specialised to a concrete pattern given as a matcher: `m s`
returns `some (replacement, rest)` when the pattern matches a prefix of `s`
(with `rest` the text after the match), `none` otherwise.  Scans left to
right, replacing non-overlapping matches; the replaced text is not
rescanned.  Fuel-driven recursion: every matcher below consumes at least
one character on success, so `s.length` units of fuel are never
exhausted. -/
def substAux (m : List Char → Option (List Char × List Char)) :
    Nat → List Char → List Char
  | 0, s => s
  | _ + 1, [] => []
  | fuel + 1, c :: t =>
    match m (c :: t) with
    | some (rep, rest) => rep ++ substAux m fuel rest
    | none => c :: substAux m fuel t

/-- `re.sub` of a matcher over a whole text. -/
def subst (m : List Char → Option (List Char × List Char)) (s : List Char) :
    List Char :=
  substAux m s.length s

/-- The `\s*\n\s*` connective of the repair patterns, always followed by a
non-whitespace literal at its call sites: consume the maximal whitespace
run, which must contain a newline; return the text after it. -/
def wsNl (s : List Char) : Option (List Char) :=
  if (s.takeWhile isPySpace).contains '\n' then some (s.dropWhile isPySpace)
  else none

/-- The lazy group `([^"]*?),` shared by repair rules 1-4: the shortest
non-quote prefix followed by a comma after which the rule's terminator `t`
matches.  Returns (content, terminator capture, rest). -/
def lazyComma (t : List Char → Option (List Char × List Char)) :
    List Char → Option (List Char × List Char × List Char)
  | [] => none
  | c :: u =>
    if c = '"' then none
    else if c = ',' then
      match t u with
      | some (cap, rest) => some ([], cap, rest)
      | none =>
        match lazyComma t u with
        | some (content, cap, rest) => some (c :: content, cap, rest)
        | none => none
    else
      match lazyComma t u with
      | some (content, cap, rest) => some (c :: content, cap, rest)
      | none => none

/-- Terminator of rule 1, `\s*\n\s*"([a-z_])`. -/
def termR1 (u : List Char) : Option (List Char × List Char) :=
  match wsNl u with
  | some ('"' :: c2 :: rest) =>
    if isLowerAZ c2 || c2 = '_' then some ([c2], rest) else none
  | _ => none

/-- Rule 1: `re.sub(r'"([^"]*?),\s*\n\s*"([a-z_])', r'"\1",\n"\2', ·)`. -/
def matchR1At : List Char → Option (List Char × List Char)
  | [] => none
  | c :: t =>
    if c = '"' then
      match lazyComma termR1 t with
      | some (content, cap, rest) =>
        some ('"' :: content ++ '"' :: ',' :: '\n' :: '"' :: cap, rest)
      | none => none
    else none

/-- Terminator of rule 2, `\s*\n\s*}`. -/
def termR2 (u : List Char) : Option (List Char × List Char) :=
  match wsNl u with
  | some ('\x7d' :: rest) => some ([], rest)
  | _ => none

/-- Rule 2: `re.sub(r'"([^"]*?),\s*\n\s*}', r'"\1"\n}', ·)`. -/
def matchR2At : List Char → Option (List Char × List Char)
  | [] => none
  | c :: t =>
    if c = '"' then
      match lazyComma termR2 t with
      | some (content, _, rest) =>
        some ('"' :: content ++ '"' :: '\n' :: '\x7d' :: [], rest)
      | none => none
    else none

/-- Terminator of rule 3, `\s*\n\s*\]`. -/
def termR3 (u : List Char) : Option (List Char × List Char) :=
  match wsNl u with
  | some (']' :: rest) => some ([], rest)
  | _ => none

/-- Rule 3: `re.sub(r'"([^"]*?),\s*\n\s*\]', r'"\1"\n]', ·)`. -/
def matchR3At : List Char → Option (List Char × List Char)
  | [] => none
  | c :: t =>
    if c = '"' then
      match lazyComma termR3 t with
      | some (content, _, rest) =>
        some ('"' :: content ++ '"' :: '\n' :: ']' :: [], rest)
      | none => none
    else none

/-- Terminator of rule 4, `\s*\n\s*"([A-Z])`. -/
def termR4 (u : List Char) : Option (List Char × List Char) :=
  match wsNl u with
  | some ('"' :: c2 :: rest) =>
    if isUpperAZ c2 then some ([c2], rest) else none
  | _ => none

/-- Rule 4: `re.sub(r'"([^"]*?),\s*\n\s*"([A-Z])', r'"\1",\n"\2', ·)`. -/
def matchR4At : List Char → Option (List Char × List Char)
  | [] => none
  | c :: t =>
    if c = '"' then
      match lazyComma termR4 t with
      | some (content, cap, rest) =>
        some ('"' :: content ++ '"' :: ',' :: '\n' :: '"' :: cap, rest)
      | none => none
    else none

/-- The trailing `\s*([,\n}])` of rule 5: greedy `\s*` backtracks until the
next character lies in the class, so it matches either the character right
after the maximal whitespace run, or the last newline inside the run. -/
def tailCapR5 (v : List Char) : Option (List Char × List Char) :=
  let w := v.takeWhile isPySpace
  let r := v.dropWhile isPySpace
  match r with
  | c :: r4 =>
    if c = ',' || c = '\x7d' then some ([c], r4)
    else if w.contains '\n' then
      some (['\n'], (w.reverse.takeWhile (fun x => !(x = '\n'))).reverse ++ r)
    else none
  | [] =>
    if w.contains '\n' then
      some (['\n'], (w.reverse.takeWhile (fun x => !(x = '\n'))).reverse)
    else none

/-- Terminator of rule 5 after the lazy content: `\s*\n\s*"\s*([,\n}])`. -/
def termR5 (v : List Char) : Option (List Char × List Char) :=
  match wsNl v with
  | some ('"' :: v2) => tailCapR5 v2
  | _ => none

/-- Lazy content of rule 5 (`[^"]*?` before `\s*\n\s*"`): stop at the first
position where the terminator matches. -/
def lazyR5 : List Char → Option (List Char × List Char × List Char)
  | [] => none
  | c :: u =>
    match termR5 (c :: u) with
    | some (cap, rest) => some ([], cap, rest)
    | none =>
      if c = '"' then none
      else
        match lazyR5 u with
        | some (content, cap, rest) => some (c :: content, cap, rest)
        | none => none

/-- Rule 5: `re.sub(r':\s*"([^"]*?)\s*\n\s*"\s*([,\n}])', r': "\1"\2', ·)`. -/
def matchR5At : List Char → Option (List Char × List Char)
  | [] => none
  | c :: t =>
    if c = ':' then
      match t.dropWhile isPySpace with
      | [] => none
      | c2 :: u =>
        if c2 = '"' then
          match termR5 u with
          | some (cap, rest) => some (':' :: ' ' :: '"' :: '"' :: cap, rest)
          | none =>
            match lazyR5 u with
            | some (content, cap, rest) =>
              some (':' :: ' ' :: '"' :: content ++ '"' :: cap, rest)
            | none => none
        else none
    else none

/-- Lazy `[^"]*?:` of rule 6: shortest non-quote run before a colon. -/
def scanToColon : List Char → Option (List Char × List Char)
  | [] => none
  | c :: u =>
    if c = ':' then some ([], u)
    else if c = '"' then none
    else
      match scanToColon u with
      | some (g, rest) => some (c :: g, rest)
      | none => none

/-- Rule 6: `re.sub(r'",\s*\n\s*([a-zA-Z_][^"]*?):', r'",\n  "\1":', ·)`. -/
def matchR6At : List Char → Option (List Char × List Char)
  | [] => none
  | [_] => none
  | c1 :: c2 :: t =>
    if c1 = '"' then
      if c2 = ',' then
        match wsNl t with
        | some (c :: u) =>
          if isAlphaUnd c then
            match scanToColon u with
            | some (g, rest) =>
              some ('"' :: ',' :: '\n' :: ' ' :: ' ' :: '"' :: (c :: g) ++ '"' :: ':' :: [], rest)
            | none => none
          else none
        | _ => none
      else none
    else none

/-- Rule 7: `re.sub(r',\s*\n\s*([}\]])', r'\n\1', ·)`. -/
def matchR7At : List Char → Option (List Char × List Char)
  | [] => none
  | c :: t =>
    if c = ',' then
      match wsNl t with
      | some (c2 :: rest) =>
        if c2 = '\x7d' || c2 = ']' then some (['\n', c2], rest) else none
      | _ => none
    else none

/-- Rule 8: `re.sub(r',(\s*[}\]])', r'\1', ·)` — remove trailing commas. -/
def matchR8At : List Char → Option (List Char × List Char)
  | [] => none
  | c :: t =>
    if c = ',' then
      match t.dropWhile isPySpace with
      | c2 :: r4 =>
        if c2 = '\x7d' || c2 = ']' then some (t.takeWhile isPySpace ++ [c2], r4)
        else none
      | [] => none
    else none

/-- Rule 9: `re.sub(r' +', ' ', ·)` — collapse every run of spaces to one
(realized by dropping every space that precedes another space). -/
def collapseSpaces : List Char → List Char
  | [] => []
  | [c] => [c]
  | c :: c2 :: u =>
    if c = ' ' && c2 = ' ' then collapseSpaces (c2 :: u)
    else c :: collapseSpaces (c2 :: u)

/-- `_ultra_clean_json` up to (but excluding) the final brace/bracket
balancing step. -/
def preBalance (s : List Char) : List Char :=
  collapseSpaces (subst matchR8At (subst matchR7At (subst matchR6At
    (subst matchR5At (subst matchR4At (subst matchR3At (subst matchR2At
      (subst matchR1At (sanitizeText s)))))))))

/-- `if cleaned.count('{') > cleaned.count('}'): cleaned += '}'`. -/
def closeBraces (s : List Char) : List Char :=
  if s.count '\x7d' < s.count '\x7b' then s ++ ['\x7d'] else s

/-- `if cleaned.count('[') > cleaned.count(']'): cleaned += ']'`. -/
def closeBrackets (s : List Char) : List Char :=
  if s.count ']' < s.count '[' then s ++ [']'] else s

/-- `_ultra_clean_json`. -/
def ultra_clean_json (s : List Char) : List Char :=
  closeBrackets (closeBraces (preBalance s))

/-! ### `_reconstruct_malformed_json` — field-by-field reconstruction -/

/-- The lazy value group of
`simple_pattern = r'"([^"]+)":\s*"([^"]*?)(?:",|$|\n)'` (`re.MULTILINE`):
the shortest non-quote run ended by `",` or by `$`.  In MULTILINE mode `$`
matches at the end of the text and before every newline, so the `\n`
alternative, tried after `$`, never fires.  Returns (value, rest). -/
def lazyValue : List Char → Option (List Char × List Char)
  | [] => some ([], [])
  | '"' :: ',' :: rest => some ([], rest)
  | '"' :: _ => none
  | '\n' :: rest => some ([], '\n' :: rest)
  | c :: u =>
    match lazyValue u with
    | some (v, rest) => some (c :: v, rest)
    | none => none

/-- One match of `simple_pattern` at the start of the text: a quoted
nonempty field name, a colon, optional whitespace, a quote, then the lazy
value.  Returns ((field, value), rest-after-match). -/
def matchSimpleAt : List Char → Option ((List Char × List Char) × List Char)
  | '"' :: t =>
    let field := t.takeWhile (fun c => !(c = '"'))
    if field.isEmpty then none
    else
      match t.dropWhile (fun c => !(c = '"')) with
      | '"' :: ':' :: u =>
        match u.dropWhile isPySpace with
        | '"' :: v =>
          match lazyValue v with
          | some (value, rest) => some ((field, value), rest)
          | none => none
        | _ => none
      | _ => none
  | _ => none

/-- `re.findall(simple_pattern, text, re.MULTILINE)`: left-to-right,
non-overlapping.  Fueled by the text length (every match consumes at least
five characters). -/
def findSimpleAux : Nat → List Char → List (List Char × List Char)
  | 0, _ => []
  | _ + 1, [] => []
  | fuel + 1, c :: t =>
    match matchSimpleAt (c :: t) with
    | some (p, rest) => p :: findSimpleAux fuel rest
    | none => findSimpleAux fuel t

/-- The character class `[\w\s/.-]` kept by the reconstruction value
filter: word characters, whitespace, `'/'`, `'.'` and `'-'`. -/
def allowedValueChar (c : Char) : Bool :=
  isWordC c || isPySpace c || c = '/' || c = '.' || c = '-'

/-- `re.sub(r'[^\w\s/.-]', '', value).strip()` — the value filter of the
reconstruction stage. -/
def cleanValue (v : List Char) : List Char :=
  stripWs (v.filter allowedValueChar)

/-- The four scalar field names the reconstruction stage accepts. -/
def scalarFieldNames : List (List Char) :=
  [("date_value").toList, ("store_name_value").toList,
   ("tax_value").toList, ("total_value").toList]

/-- The `for field, value in matches` loop of `_reconstruct_malformed_json`:
keep only the four scalar fields, storing the cleaned value. -/
def insertScalars (data : List (List Char × Json)) :
    List (List Char × List Char) → List (List Char × Json)
  | [] => data
  | (f, v) :: ms =>
    if scalarFieldNames.contains f then
      insertScalars (dinsert f (Json.jstr (cleanValue v)) data) ms
    else insertScalars data ms

/-- The lazy group of `array_pattern = r'"prod_item_value":\s*\[(.*?)(?:\]|$)'`
(`re.DOTALL`): content up to the first `']'`, or to the end of the text
(`$` also matches before a newline that is the last character). -/
def lazyArrContent : List Char → List Char
  | [] => []
  | ['\n'] => []
  | c :: u => if c = ']' then [] else c :: lazyArrContent u

/-- Does `array_pattern` match at the start of the text? -/
def arrayContentAt (s : List Char) : Option (List Char) :=
  let key := ("\"prod_item_value\":").toList
  if startsWithL key s then
    match (s.drop key.length).dropWhile isPySpace with
    | '[' :: u => some (lazyArrContent u)
    | _ => none
  else none

/-- `re.search(array_pattern, text, re.DOTALL)`: group 1 of the leftmost
match. -/
def findArrayContent : Nat → List Char → Option (List Char)
  | 0, _ => none
  | _ + 1, [] => none
  | fuel + 1, c :: t =>
    match arrayContentAt (c :: t) with
    | some content => some content
    | none => findArrayContent fuel t

/-- `re.findall(r'"([^"]*?)"', array_content)`: the runs between successive
pairs of quotes. -/
def findQuoted : Nat → List Char → List (List Char)
  | 0, _ => []
  | _ + 1, [] => []
  | fuel + 1, c :: t =>
    if c = '"' then
      match t.dropWhile (fun x => !(x = '"')) with
      | '"' :: r => t.takeWhile (fun x => !(x = '"')) :: findQuoted fuel r
      | _ => []
    else findQuoted fuel t

/-- `item.rstrip(',').strip()`, dropping items that become empty. -/
def cleanItems : List (List Char) → List (List Char)
  | [] => []
  | i :: t =>
    let ci := stripWs (rstripComma i)
    if ci.isEmpty then cleanItems t else ci :: cleanItems t

/-- The fallback record `default_json` of `extract_json_from_text` (the
`required_fields` literal of `_reconstruct_malformed_json` repeats it). -/
def default_json : List (List Char × Json) :=
  [(("date_value").toList, Json.jstr []),
   (("store_name_value").toList, Json.jstr []),
   (("tax_value").toList, Json.jstr []),
   (("total_value").toList, Json.jstr []),
   (("prod_item_value").toList, Json.jarr []),
   (("prod_quantity_value").toList, Json.jarr []),
   (("prod_price_value").toList, Json.jarr [])]

/-- One step of the required-fields loop: `if field not in data:
data[field] = default` (assignment of a fresh key appends). -/
def ensureStep (d : List (List Char × Json)) (kv : List Char × Json) :
    List (List Char × Json) :=
  if (jlookup kv.1 d).isSome then d else d ++ [kv]

/-- `for field, default in required_fields.items(): if field not in data:
data[field] = default`. -/
def ensureRequired (data : List (List Char × Json)) : List (List Char × Json) :=
  default_json.foldl ensureStep data

/-- The product-array step of `_reconstruct_malformed_json`: when
`array_pattern` matches and quoted items exist, store the cleaned item
array together with placeholder quantity `"1"` and price `"0.00"` arrays
of the same length. -/
def reconstructArrays (text : List Char) (data : List (List Char × Json)) :
    List (List Char × Json) :=
  match findArrayContent text.length text with
  | some content =>
    if (findQuoted content.length content).isEmpty then data
    else
      dinsert (("prod_price_value").toList)
        (Json.jarr (List.replicate (cleanItems (findQuoted content.length content)).length
          (Json.jstr (("0.00").toList))))
        (dinsert (("prod_quantity_value").toList)
          (Json.jarr (List.replicate (cleanItems (findQuoted content.length content)).length
            (Json.jstr (("1").toList))))
          (dinsert (("prod_item_value").toList)
            (Json.jarr ((cleanItems (findQuoted content.length content)).map Json.jstr)) data))
  | none => data

/-- `_reconstruct_malformed_json`, as the dictionary it serializes: scalar
fields from `simple_pattern` matches, the item array from `array_pattern`
with placeholder quantity and price arrays, then defaults for every
missing field. -/
def reconstruct_malformed_json (text : List Char) : List (List Char × Json) :=
  ensureRequired
    (reconstructArrays text (insertScalars [] (findSimpleAux text.length text)))

/-! ### `json.loads` — strict JSON parsing

A recursive-descent parser for the strict JSON grammar `json.loads`
accepts.  Numbers keep their lexeme (no claim decodes one); the
`NaN`/`Infinity` extensions and surrogate-pair combination in `\u` escapes
are not modelled (no claim's input contains them).  Fuel bounds the
recursion depth; parsing a text of length `n` nests at most `2 n + 2`
calls, the fuel the entry point supplies. -/

/-- JSON insignificant whitespace (space, tab, newline, carriage return). -/
def jsonWs (c : Char) : Bool :=
  c = ' ' || c = '\t' || c = '\n' || c = '\r'

/-- Hexadecimal digit value. -/
def hexVal (c : Char) : Option Nat :=
  if isDigitC c then some (c.toNat - 48)
  else if 97 ≤ c.toNat && c.toNat ≤ 102 then some (c.toNat - 87)
  else if 65 ≤ c.toNat && c.toNat ≤ 70 then some (c.toNat - 55)
  else none

/-- Body of a JSON string after the opening quote: decoded characters and
the rest after the closing quote.  Unescaped control characters are
rejected, as `json.loads` does in strict mode. -/
def parseStringBody : Nat → List Char → Option (List Char × List Char)
  | 0, _ => none
  | _ + 1, [] => none
  | fuel + 1, c :: t =>
    if c = '"' then some ([], t)
    else if c = '\\' then
      match t with
      | [] => none
      | e :: r =>
        if e = '"' || e = '\\' || e = '/' then
          (parseStringBody fuel r).map fun p => (e :: p.1, p.2)
        else if e = 'n' then (parseStringBody fuel r).map fun p => ('\n' :: p.1, p.2)
        else if e = 't' then (parseStringBody fuel r).map fun p => ('\t' :: p.1, p.2)
        else if e = 'r' then (parseStringBody fuel r).map fun p => ('\r' :: p.1, p.2)
        else if e = 'b' then (parseStringBody fuel r).map fun p => ('\x08' :: p.1, p.2)
        else if e = 'f' then (parseStringBody fuel r).map fun p => ('\x0c' :: p.1, p.2)
        else if e = 'u' then
          match r with
          | h1 :: h2 :: h3 :: h4 :: r2 =>
            match hexVal h1, hexVal h2, hexVal h3, hexVal h4 with
            | some a, some b, some c2, some d =>
              (parseStringBody fuel r2).map fun p =>
                (Char.ofNat (a * 4096 + b * 256 + c2 * 16 + d) :: p.1, p.2)
            | _, _, _, _ => none
          | _ => none
        else none
    else if c.toNat < 32 then none
    else (parseStringBody fuel t).map fun p => (c :: p.1, p.2)

/-- JSON number lexeme: `-? (0|[1-9][0-9]*) (\.[0-9]+)? ([eE][+-]?[0-9]+)?`. -/
def parseNumLex (s : List Char) : Option (List Char × List Char) :=
  let (sign, s1) :=
    match s with
    | '-' :: r => (['-'], r)
    | _ => (([] : List Char), s)
  match s1 with
  | [] => none
  | c :: r =>
    if !(isDigitC c) then none
    else
      let (intPart, s2) :=
        if c = '0' then (['0'], r)
        else (c :: r.takeWhile isDigitC, r.dropWhile isDigitC)
      let (fracPart, s3) :=
        match s2 with
        | '.' :: r2 =>
          if (r2.takeWhile isDigitC).isEmpty then (none, s2)
          else (some ('.' :: r2.takeWhile isDigitC), r2.dropWhile isDigitC)
        | _ => (none, s2)
      match fracPart, s2 with
      | none, '.' :: _ => none
      | _, _ =>
        let (expPart, s4) :=
          match s3 with
          | e :: r3 =>
            if e = 'e' || e = 'E' then
              let (sgn, r4) :=
                match r3 with
                | '+' :: r5 => (['+'], r5)
                | '-' :: r5 => (['-'], r5)
                | _ => (([] : List Char), r3)
              if (r4.takeWhile isDigitC).isEmpty then (none, s3)
              else (some (e :: sgn ++ r4.takeWhile isDigitC), r4.dropWhile isDigitC)
            else (none, s3)
          | [] => (none, s3)
        match expPart, s3 with
        | none, e :: _ =>
          if e = 'e' || e = 'E' then none
          else some (sign ++ intPart ++ fracPart.getD [] ++ expPart.getD [], s4)
        | _, _ => some (sign ++ intPart ++ fracPart.getD [] ++ expPart.getD [], s4)

mutual

/-- A JSON value at the start of the text (no leading whitespace). -/
def parseVal : Nat → List Char → Option (Json × List Char)
  | 0, _ => none
  | fuel + 1, s =>
    match s with
    | [] => none
    | c :: t =>
      if c = '"' then
        (parseStringBody (t.length + 1) t).map fun p => (Json.jstr p.1, p.2)
      else if c = '\x7b' then
        match t.dropWhile jsonWs with
        | '\x7d' :: r => some (Json.jobj [], r)
        | r => parseMembers fuel r
      else if c = '[' then
        match t.dropWhile jsonWs with
        | ']' :: r => some (Json.jarr [], r)
        | r => parseElems fuel r
      else if startsWithL (("true").toList) s then some (Json.jbool true, s.drop 4)
      else if startsWithL (("false").toList) s then some (Json.jbool false, s.drop 5)
      else if startsWithL (("null").toList) s then some (Json.null, s.drop 4)
      else (parseNumLex s).map fun p => (Json.jnum p.1, p.2)

/-- Elements of a nonempty JSON array, after the opening bracket and
whitespace. -/
def parseElems : Nat → List Char → Option (Json × List Char)
  | 0, _ => none
  | fuel + 1, s =>
    match parseVal fuel s with
    | some (v, rest) =>
      match rest.dropWhile jsonWs with
      | ',' :: r2 =>
        match parseElems fuel (r2.dropWhile jsonWs) with
        | some (Json.jarr vs, rest2) => some (Json.jarr (v :: vs), rest2)
        | _ => none
      | ']' :: r2 => some (Json.jarr [v], r2)
      | _ => none
    | none => none

/-- Members of a nonempty JSON object, after the opening brace and
whitespace. -/
def parseMembers : Nat → List Char → Option (Json × List Char)
  | 0, _ => none
  | fuel + 1, s =>
    match s with
    | '"' :: t =>
      match parseStringBody (t.length + 1) t with
      | some (k, rest) =>
        match rest.dropWhile jsonWs with
        | ':' :: r2 =>
          match parseVal fuel (r2.dropWhile jsonWs) with
          | some (v, rest2) =>
            match rest2.dropWhile jsonWs with
            | ',' :: r3 =>
              match parseMembers fuel (r3.dropWhile jsonWs) with
              | some (Json.jobj kvs, rest3) => some (Json.jobj ((k, v) :: kvs), rest3)
              | _ => none
            | '\x7d' :: r3 => some (Json.jobj [(k, v)], r3)
            | _ => none
          | none => none
        | _ => none
      | none => none
    | _ => none

end

/-- `json.loads`: a single JSON value, surrounded only by whitespace. -/
def parseJson (s : List Char) : Option Json :=
  match parseVal (2 * s.length + 2) (s.dropWhile jsonWs) with
  | some (j, rest) => if (rest.dropWhile jsonWs).isEmpty then some j else none
  | none => none

/-! ### `extract_json_from_text` — candidate search and top level -/

/-- `_try_parse_with_cleaning`: strict parse, then parse after
`_ultra_clean_json` (step 3 of the source is a removed fallback). -/
def try_parse_with_cleaning (s : List Char) : Option Json :=
  match parseJson s with
  | some j => some j
  | none => parseJson (ultra_clean_json s)

/-- Lazy `(.*?)` of the fenced-block pattern: content up to the first
closing triple backtick, with the rest after it. -/
def scanToTicks : Nat → List Char → Option (List Char × List Char)
  | 0, _ => none
  | _ + 1, [] => none
  | fuel + 1, c :: t =>
    if startsWithL (("```").toList) (c :: t) then some ([], t.drop 2)
    else
      match scanToTicks fuel t with
      | some (con, rest) => some (c :: con, rest)
      | none => none

/-- `re.findall(r"```(?:json)?(.*?)```", text, re.DOTALL)`: the contents of
fenced code blocks, an optional `json` tag consumed greedily. -/
def findFenced : Nat → List Char → List (List Char)
  | 0, _ => []
  | _ + 1, [] => []
  | fuel + 1, c :: t =>
    if startsWithL (("```").toList) (c :: t) then
      let afterOpen := t.drop 2
      let afterTag :=
        if startsWithL (("json").toList) afterOpen then afterOpen.drop 4 else afterOpen
      match scanToTicks afterTag.length afterTag with
      | some (content, rest) => content :: findFenced fuel rest
      | none => []
    else findFenced fuel t

/-- Stable insertion into a length-descending list (an earlier element
precedes later ones of equal length). -/
def insertByLen (x : List Char) : List (List Char) → List (List Char)
  | [] => [x]
  | y :: t => if y.length ≤ x.length then x :: y :: t else y :: insertByLen x t

/-- `markdown_matches.sort(key=len, reverse=True)` — Python's stable sort,
longest first. -/
def sortLenDesc : List (List Char) → List (List Char)
  | [] => []
  | x :: t => insertByLen x (sortLenDesc t)

/-- The fenced-block loop: strip each block, return the first that parses
(strictly or after cleaning). -/
def tryBlocks : List (List Char) → Option Json
  | [] => none
  | b :: t =>
    match try_parse_with_cleaning (stripWs b) with
    | some j => some j
    | none => tryBlocks t

/-- Lazy content of `r"({[\s\S]*?})"`: up to the first closing brace. -/
def scanToCloseBrace : List Char → Option (List Char × List Char)
  | [] => none
  | c :: t =>
    if c = '\x7d' then some ([], t)
    else
      match scanToCloseBrace t with
      | some (i, r) => some (c :: i, r)
      | none => none

/-- `re.findall(r"({[\s\S]*?})", text)`: brace-delimited spans, each from an
opening brace to the first closing brace after it. -/
def findBraceSpans : Nat → List Char → List (List Char)
  | 0, _ => []
  | _ + 1, [] => []
  | fuel + 1, c :: t =>
    if c = '\x7b' then
      match scanToCloseBrace t with
      | some (inner, rest) => ('\x7b' :: inner ++ ['\x7d']) :: findBraceSpans fuel rest
      | none => []
    else findBraceSpans fuel t

/-- The brace-span loop of `extract_json_from_text`. -/
def trySpans : List (List Char) → Option Json
  | [] => none
  | b :: t =>
    match try_parse_with_cleaning b with
    | some j => some j
    | none => trySpans t

/-- The markdown and general-pattern branches of `extract_json_from_text`,
ending at the `default_json` fallback. -/
def candidate_search (text : List Char) : Json :=
  match tryBlocks (sortLenDesc (findFenced text.length text)) with
  | some j => j
  | none =>
    match trySpans (findBraceSpans text.length text) with
    | some j => j
    | none => Json.jobj default_json

/-- The composition `json.loads(json.dumps(data, indent=2))` of the
reconstruction branch of `extract_json_from_text`.  On every dictionary
`_reconstruct_malformed_json` builds (string keys, values that are strings
or lists of strings) `json.dumps` succeeds and returns a nonempty text and
`json.loads` parses it back to an equal dictionary, so the pair is the
identity and never falls through to the exception handler; it is modelled
accordingly. -/
def dumps_loads (data : List (List Char × Json)) : Option Json :=
  some (Json.jobj data)

/-- `extract_json_from_text`: empty input returns the default record;
otherwise the reconstruction is serialized and re-parsed and, were that to
fail, the fenced-block and brace-span candidate searches would run. -/
def extract_json_from_text (text : List Char) : Json :=
  if text.isEmpty then Json.jobj default_json
  else
    match dumps_loads (reconstruct_malformed_json text) with
    | some result => result
    | none => candidate_search text

/-! ### `normalization.py` — field normalizers and `post_process_prediction` -/

/-- `re.search(r"([\d,.]+)", s)`: the leftmost maximal run of digits,
commas and periods. -/
def findNumRun : List Char → Option (List Char)
  | [] => none
  | c :: t =>
    if isNumRunC c then some (c :: t.takeWhile isNumRunC) else findNumRun t

/-- Round half to even of the rational `a / b`, the rounding fixed-point
formatting performs; the model evaluates it on the exact decimal value
(see `format2f`). -/
def rhe (a b : Nat) : Nat :=
  let q := a / b
  let r := a % b
  if 2 * r < b then q
  else if b < 2 * r then q + 1
  else if q % 2 = 0 then q else q + 1

/-- Python `float(s)` on a string of digits and at most one period (the
only shapes `normalize_number` can pass): `some (D, f)` with value
`D / 10 ^ f`; fails iff no digit is present.  Exact-decimal model of the
binary `float`. -/
def parseFloatDigits (l : List Char) : Option (Nat × Nat) :=
  match splitOnC '.' l with
  | [ip] => if ip.isEmpty then none else some (digitsToNat ip, 0)
  | [ip, fp] =>
    if ip.isEmpty && fp.isEmpty then none
    else some (digitsToNat (ip ++ fp), fp.length)
  | _ => none

/-- `f"{number:.2f}"` for the nonnegative decimal `D / 10 ^ f`, modelled
exactly: round half to even at two fractional digits.  (CPython formats
the binary double nearest the decimal; the two agree on every value the
claims involve.) -/
def format2f (D f : Nat) : List Char :=
  natDigits (rhe (D * 100) (10 ^ f) / 100) ++ '.' :: pad2 (rhe (D * 100) (10 ^ f) % 100)

/-- The separator handling of `normalize_number`: turn commas into
periods (`number_str.replace(",", ".")`); if more than one period remains
keep the first and concatenate the remaining digit groups
(`parts[0] + "." + "".join(parts[1:])`). -/
def collapseRun (run : List Char) : List Char :=
  let withDots := run.map fun c => if c = ',' then '.' else c
  let parts := splitOnC '.' withDots
  if 2 < parts.length then parts.headI ++ '.' :: parts.tail.foldr (· ++ ·) []
  else withDots

/-- `normalize_number`: extract the first run of digits, commas and
periods; normalize the separators; parse as a number and format with two
decimal places; on failure return the input. -/
def normalize_number (s : List Char) : List Char :=
  if s.isEmpty then []
  else
    match findNumRun s with
    | none => s
    | some run =>
      match parseFloatDigits (collapseRun run) with
      | some Df => format2f Df.1 Df.2
      | none => s

/-- `normalize_store_name`: uppercase then strip; empty input yields
empty output. -/
def normalize_store_name (s : List Char) : List Char :=
  if s.isEmpty then [] else stripWs (s.map toUpperC)

/-- The month-name fragments `normalize_date` looks for. -/
def monthTokens : List (List Char) :=
  [("jan").toList, ("feb").toList, ("mar").toList, ("apr").toList,
   ("may").toList, ("jun").toList, ("jul").toList, ("aug").toList,
   ("sep").toList, ("oct").toList, ("nov").toList, ("dec").toList]

/-- `any(x in date_str.lower() for x in [...])`. -/
def hasMonthToken (s : List Char) : Bool :=
  monthTokens.any fun m => hasSub m (s.map toLowerC)

/-- The time-stripping preamble of `normalize_date`: when the text
contains a space and no month-name fragment, keep only
`date_str.split(" ")[0]`, the part before the first space. -/
def datePreprocess (s : List Char) : List Char :=
  if s.contains ' ' && !(hasMonthToken s) then s.takeWhile (fun c => !(c = ' '))
  else s

/-- True of digit-only nonempty text. -/
def allDigits (l : List Char) : Bool :=
  !l.isEmpty && l.all isDigitC

/-- Modelled from the spec: the external `dateparser.parse` call of
`normalize_date` ("parse using locale-agnostic natural-language date
parsing").  Modelled only on purely numeric day/month/four-digit-year
dates separated by slashes — the one shape the claims evaluate it on;
every other text is treated as unparseable. -/
def dateparse (s : List Char) : Option (Nat × Nat × Nat) :=
  match splitOnC '/' s with
  | [d, m, y] =>
    if allDigits d && allDigits m && allDigits y && y.length = 4 then
      let dn := digitsToNat d
      let mn := digitsToNat m
      if 1 ≤ dn && dn ≤ 31 && 1 ≤ mn && mn ≤ 12 then some (dn, mn, digitsToNat y)
      else none
    else none
  | _ => none

/-- `parsed_date.strftime("%d/%m/%Y")`. -/
def formatDMY (d m y : Nat) : List Char :=
  pad2 d ++ '/' :: pad2 m ++ '/' :: natDigits y

/-- `normalize_date`: strip a trailing space-separated component when no
month fragment occurs, parse, and reformat to `DD/MM/YYYY`; when parsing
fails the (preprocessed) text is returned. -/
def normalize_date (s : List Char) : List Char :=
  let s2 := datePreprocess s
  match dateparse s2 with
  | some (d, m, y) => formatDMY d m y
  | none => s2

/-- `data[k] = f(data[k])` guarded by `if k in data`.  Reconstruction only
stores strings at the scalar fields, so the non-string arm is
unreachable and leaves the value unchanged. -/
def updateField (k : List Char) (f : List Char → List Char) :
    List (List Char × Json) → List (List Char × Json)
  | [] => []
  | (k', v) :: t =>
    if k' = k then
      (k', match v with
           | Json.jstr s => Json.jstr (f s)
           | other => other) :: t
    else (k', v) :: updateField k f t

/-- `post_process_prediction` with confidence scoring disabled (the
environment default).  `if not data` can only hold of an empty dictionary,
yielding the error sentinel; the extractor always returns a seven-field
object, so the sentinel is unreachable. -/
def post_process_prediction (raw_text : List Char) : Json :=
  match extract_json_from_text raw_text with
  | Json.jobj [] =>
    Json.jobj [(("error").toList, Json.jstr (("Could not extract valid JSON").toList))]
  | Json.jobj kvs =>
    Json.jobj (updateField (("total_value").toList) normalize_number
      (updateField (("tax_value").toList) normalize_number
        (updateField (("store_name_value").toList) normalize_store_name
          (updateField (("date_value").toList) normalize_date kvs))))
  | other => other

/-! ### Supporting definitions for the verified statements -/

/-- The key/value list of a JSON object (empty for non-objects). -/
def jfields : Json → List (List Char × Json)
  | Json.jobj kvs => kvs
  | _ => []

/-- The seven canonical keys of an extraction record. -/
def canonicalKeys : List (List Char) :=
  [("date_value").toList, ("store_name_value").toList, ("tax_value").toList,
   ("total_value").toList, ("prod_item_value").toList,
   ("prod_quantity_value").toList, ("prod_price_value").toList]

/-- Does a pipeline result carry all seven canonical keys? -/
def hasSevenKeys (j : Json) : Bool :=
  canonicalKeys.all fun k => (jlookup k (jfields j)).isSome

/-- Does the text contain a (ASCII) digit? -/
def containsDigit (s : List Char) : Bool :=
  s.any isDigitC

/-- A clock-time-looking token: digits, a colon, digits. -/
def looksLikeClockTime (s : List Char) : Bool :=
  match splitOnC ':' s with
  | [h, m] => allDigits h && allDigits m
  | _ => false

/-- The raw text of the spec's end-to-end scenario: a fenced `json` block
holding the seven canonical fields as one line of valid JSON. -/
def scenarioText : List Char :=
  ("```json\n\x7b\"date_value\": \"05/05/2025\",\"store_name_value\": \"woolworths\",\"tax_value\": \"$12.8\",\"total_value\": \"140.9\",\"prod_item_value\": [\"Milk 2L\"],\"prod_quantity_value\": [\"1\"],\"prod_price_value\": [\"4.5\"]\x7d\n```").toList

/-- The content of the scenario's fenced block as the fence-matching of
`extract_json_from_text` captures it (the newlines around the JSON line). -/
def scenarioBlock : List Char :=
  ("\n\x7b\"date_value\": \"05/05/2025\",\"store_name_value\": \"woolworths\",\"tax_value\": \"$12.8\",\"total_value\": \"140.9\",\"prod_item_value\": [\"Milk 2L\"],\"prod_quantity_value\": [\"1\"],\"prod_price_value\": [\"4.5\"]\x7d\n").toList

/-- The seven fields the scenario's JSON line denotes. -/
def scenarioInputFields : List (List Char × Json) :=
  [(("date_value").toList, Json.jstr (("05/05/2025").toList)),
   (("store_name_value").toList, Json.jstr (("woolworths").toList)),
   (("tax_value").toList, Json.jstr (("$12.8").toList)),
   (("total_value").toList, Json.jstr (("140.9").toList)),
   (("prod_item_value").toList, Json.jarr [Json.jstr (("Milk 2L").toList)]),
   (("prod_quantity_value").toList, Json.jarr [Json.jstr (("1").toList)]),
   (("prod_price_value").toList, Json.jarr [Json.jstr (("4.5").toList)])]

/-- The string payload of an optional JSON value, used to state concrete
disequalities of record fields. -/
def jstrOf : Option Json → Option (List Char)
  | some (Json.jstr s) => some s
  | _ => none

/-- The string elements of an optional JSON array of strings (non-strings
as empty), used to state concrete disequalities of record fields. -/
def jarrStrs : Option Json → Option (List (List Char))
  | some (Json.jarr xs) =>
    some (xs.map fun j =>
      match j with
      | Json.jstr s => s
      | _ => [])
  | _ => none

/-- A comma followed by spaces-only whitespace and a closing brace or
bracket occurs somewhere in the text — the shapes repair rule 8 fires
on in newline-free text. -/
def hasCommaCloser : List Char → Bool
  | [] => false
  | c :: t =>
    (c = ',' &&
      (match t.dropWhile isPySpace with
       | c2 :: _ => c2 = '\x7d' || c2 = ']'
       | [] => false)) ||
    hasCommaCloser t

/-- The record the pipeline actually produces on the scenario text. -/
def scenarioResultFields : List (List Char × Json) :=
  [(("date_value").toList, Json.jstr (("05/05/2025").toList)),
   (("store_name_value").toList, Json.jstr (("WOOLWORTHS").toList)),
   (("tax_value").toList, Json.jstr (("12.80").toList)),
   (("total_value").toList, Json.jstr (("140.90").toList)),
   (("prod_item_value").toList, Json.jarr [Json.jstr (("Milk 2L").toList)]),
   (("prod_quantity_value").toList, Json.jarr [Json.jstr (("1").toList)]),
   (("prod_price_value").toList, Json.jarr [Json.jstr (("0.00").toList)])]

/-! ## Theorems -/

/-! ### Dictionary lemmas -/

theorem jlookup_dinsert_self (k : List Char) (v : Json)
    (d : List (List Char × Json)) : jlookup k (dinsert k v d) = some v := by
  induction d with
  | nil => simp [dinsert, jlookup]
  | cons kv t ih =>
    by_cases h : kv.1 = k
    · simp [dinsert, h, jlookup]
    · simp [dinsert, h, jlookup, ih]

theorem jlookup_dinsert_ne (k k' : List Char) (v : Json)
    (d : List (List Char × Json)) (h : k' ≠ k) :
    jlookup k (dinsert k' v d) = jlookup k d := by
  induction d with
  | nil => simp [dinsert, jlookup, h]
  | cons kv t ih =>
    cases kv with
    | mk k1 v1 =>
      by_cases h2 : k1 = k'
      · have hk : ¬ k1 = k := by rw [h2]; exact h
        simp [dinsert, h2, jlookup, h, hk]
      · by_cases h3 : k1 = k
        · simp [dinsert, h2, jlookup, h3, Ne.symm h]
        · simp [dinsert, h2, jlookup, h3, ih]

theorem jlookup_append_some (k : List Char) (d e : List (List Char × Json))
    (v : Json) (h : jlookup k d = some v) : jlookup k (d ++ e) = some v := by
  induction d with
  | nil => simp [jlookup] at h
  | cons kv t ih =>
    by_cases h2 : kv.1 = k
    · simpa [jlookup, h2] using (by simpa [jlookup, h2] using h)
    · simp only [jlookup, h2, if_false, List.cons_append] at h ⊢
      simp [jlookup, h2] at h ⊢
      exact ih h

theorem jlookup_append_none (k : List Char) (d e : List (List Char × Json))
    (h : jlookup k d = none) : jlookup k (d ++ e) = jlookup k e := by
  induction d with
  | nil => simp
  | cons kv t ih =>
    by_cases h2 : kv.1 = k
    · simp [jlookup, h2] at h
    · simp [jlookup, h2] at h ⊢
      exact ih h

theorem jlookup_ensure_inv (ds : List (List Char × Json)) (k : List Char)
    (v : Json) :
    ∀ d, jlookup k (ds.foldl ensureStep d) = some v →
      jlookup k d = some v ∨ (k, v) ∈ ds := by
  induction ds with
  | nil => intro d h; exact Or.inl h
  | cons kv t ih =>
    intro d h
    simp only [List.foldl_cons] at h
    rcases ih _ h with h1 | h2
    · unfold ensureStep at h1
      by_cases hg : (jlookup kv.1 d).isSome
      · rw [if_pos hg] at h1; exact Or.inl h1
      · rw [if_neg hg] at h1
        cases hd : jlookup k d with
        | some w =>
          rw [jlookup_append_some k d [kv] w hd] at h1
          exact Or.inl h1
        | none =>
          rw [jlookup_append_none k d [kv] hd] at h1
          by_cases h3 : kv.1 = k
          · simp only [jlookup, h3, if_true] at h1
            refine Or.inr ?_
            cases kv with
            | mk k1 v1 =>
              have hk : k1 = k := h3
              have hv : v1 = v := by injection h1
              subst hk
              subst hv
              exact List.mem_cons_self _ _
          · simp [jlookup, h3] at h1
    · exact Or.inr (List.mem_cons_of_mem _ h2)

theorem jlookup_ensure_isSome (ds : List (List Char × Json)) (k : List Char) :
    ∀ d, (∃ v, (k, v) ∈ ds) ∨ (jlookup k d).isSome = true →
      (jlookup k (ds.foldl ensureStep d)).isSome = true := by
  induction ds with
  | nil =>
    intro d h
    rcases h with ⟨v, hv⟩ | h
    · simp at hv
    · exact h
  | cons kv t ih =>
    intro d h
    simp only [List.foldl_cons]
    apply ih
    rcases h with ⟨v, hv⟩ | h
    · rcases List.mem_cons.mp hv with heq | hmem
      · right
        unfold ensureStep
        by_cases hg : (jlookup kv.1 d).isSome
        · rw [if_pos hg]
          have : kv.1 = k := by rw [← heq]
          rwa [← this]
        · rw [if_neg hg]
          have hnone : jlookup k d = none := by
            have : kv.1 = k := by rw [← heq]
            rw [← this]
            cases hx : jlookup kv.1 d with
            | none => rfl
            | some w => rw [hx] at hg; simp at hg
          rw [jlookup_append_none k d [kv] hnone]
          have : kv.1 = k := by rw [← heq]
          simp [jlookup, this]
      · exact Or.inl ⟨v, hmem⟩
    · right
      unfold ensureStep
      by_cases hg : (jlookup kv.1 d).isSome
      · rwa [if_pos hg]
      · rw [if_neg hg]
        cases hd : jlookup k d with
        | none => rw [hd] at h; simp at h
        | some w => rw [jlookup_append_some k d [kv] w hd]; rfl

/-! ### Pipeline structure lemmas -/

theorem extract_eq_reconstruct (text : List Char) (h : text ≠ []) :
    extract_json_from_text text = Json.jobj (reconstruct_malformed_json text) := by
  cases text with
  | nil => exact absurd rfl h
  | cons c t => rfl

theorem jlookup_insertScalars_not_scalar (k : List Char)
    (hk : scalarFieldNames.contains k = false) :
    ∀ (ms : List (List Char × List Char)) (d : List (List Char × Json)),
      jlookup k (insertScalars d ms) = jlookup k d := by
  intro ms
  induction ms with
  | nil => intro d; rfl
  | cons m t ih =>
    intro d
    cases m with
    | mk f v =>
      by_cases hf : scalarFieldNames.contains f
      · rw [insertScalars, if_pos hf, ih]
        refine jlookup_dinsert_ne k f (Json.jstr (cleanValue v)) d ?_
        intro hfk
        rw [hfk] at hf
        rw [hf] at hk
        exact Bool.true_eq_false.mp hk
      · rw [insertScalars, if_neg hf, ih]

theorem jlookup_insertScalars_str (k : List Char) (v : List Char) :
    ∀ (ms : List (List Char × List Char)) (d : List (List Char × Json)),
      jlookup k (insertScalars d ms) = some (Json.jstr v) →
      (∃ raw, v = cleanValue raw) ∨ jlookup k d = some (Json.jstr v) := by
  intro ms
  induction ms with
  | nil => intro d h; exact Or.inr h
  | cons m t ih =>
    intro d h
    cases m with
    | mk f rawv =>
      by_cases hf : scalarFieldNames.contains f
      · rw [insertScalars, if_pos hf] at h
        rcases ih _ h with h1 | h2
        · exact Or.inl h1
        · by_cases hfk : f = k
          · rw [hfk] at h2
            rw [jlookup_dinsert_self k (Json.jstr (cleanValue rawv)) d] at h2
            refine Or.inl ⟨rawv, ?_⟩
            injection h2 with h2
            injection h2 with h2
            exact h2.symm
          · rw [jlookup_dinsert_ne k f (Json.jstr (cleanValue rawv)) d hfk] at h2
            exact Or.inr h2
      · rw [insertScalars, if_neg hf] at h
        exact ih _ h

theorem cleanValue_chars (raw : List Char) :
    ∀ c ∈ cleanValue raw, allowedValueChar c = true := by
  intro c hc
  unfold cleanValue stripWs at hc
  rw [List.mem_reverse] at hc
  have hc2 := (List.dropWhile_sublist isPySpace).subset hc
  rw [List.mem_reverse] at hc2
  have hc3 := (List.dropWhile_sublist isPySpace).subset hc2
  exact List.of_mem_filter hc3

theorem jlookup_updateField_isSome (k k' : List Char) (f : List Char → List Char)
    (kvs : List (List Char × Json)) :
    (jlookup k (updateField k' f kvs)).isSome = (jlookup k kvs).isSome := by
  induction kvs with
  | nil => rfl
  | cons kv t ih =>
    cases kv with
    | mk k1 v1 =>
      by_cases h1 : k1 = k' <;> by_cases h2 : k1 = k <;>
        cases v1 <;> simp_all [updateField, jlookup]

theorem default_mem_arr (key : List Char) (xs : List Json)
    (h : (key, Json.jarr xs) ∈ default_json) : xs = [] := by
  simp only [default_json, List.mem_cons, List.not_mem_nil, or_false] at h
  rcases h with h | h | h | h | h | h | h <;> injection h with ha hb
  · exact Json.noConfusion hb
  · exact Json.noConfusion hb
  · exact Json.noConfusion hb
  · exact Json.noConfusion hb
  · injection hb
  · injection hb
  · injection hb

theorem reconstruct_array_lookup (text : List Char) (key : List Char)
    (hkey : key = ("prod_quantity_value").toList ∨ key = ("prod_price_value").toList)
    (xs : List Json)
    (h : jlookup key (reconstruct_malformed_json text) = some (Json.jarr xs)) :
    xs = [] ∨
      (∃ n elt, xs = List.replicate n (Json.jstr elt) ∧
        (key = ("prod_quantity_value").toList → elt = ("1").toList) ∧
        (key = ("prod_price_value").toList → elt = ("0.00").toList)) := by
  have hnotscalar : scalarFieldNames.contains key = false := by
    rcases hkey with hk | hk <;> rw [hk] <;> decide
  have hbase :
      jlookup key (insertScalars [] (findSimpleAux text.length text)) = none := by
    rw [jlookup_insertScalars_not_scalar key hnotscalar]
    rfl
  unfold reconstruct_malformed_json at h
  rcases jlookup_ensure_inv default_json key (Json.jarr xs) _ h with h1 | h2
  · unfold reconstructArrays at h1
    rcases hfa : findArrayContent text.length text with _ | content <;>
      rw [hfa] at h1 <;> simp only at h1
    · rw [hbase] at h1
      exact absurd h1 (by simp)
    · by_cases hitems : (findQuoted content.length content).isEmpty
      · rw [if_pos hitems, hbase] at h1
        exact absurd h1 (by simp)
      · rw [if_neg hitems] at h1
        right
        rcases hkey with hk | hk
        · subst hk
          rw [jlookup_dinsert_ne _ _ _ _ (by decide),
            jlookup_dinsert_self] at h1
          refine ⟨(cleanItems (findQuoted content.length content)).length,
            ("1").toList, ?_, fun _ => rfl, fun hcon => absurd hcon (by decide)⟩
          injection h1 with h1
          injection h1 with h1
          exact h1.symm
        · subst hk
          rw [jlookup_dinsert_self] at h1
          refine ⟨(cleanItems (findQuoted content.length content)).length,
            ("0.00").toList, ?_, fun hcon => absurd hcon (by decide), fun _ => rfl⟩
          injection h1 with h1
          injection h1 with h1
          exact h1.symm
  · exact Or.inl (default_mem_arr _ _ h2)

/-! ### Claim C2 — when is the Reconstructor invoked? -/

set_option maxRecDepth 40000
set_option maxHeartbeats 2000000

/-- C2 counterexample.  The claim says a candidate block that parses
strictly is what the pipeline returns.  The scenario text contains exactly
one fenced candidate, its stripped content parses strictly, and its price
array is `["4.5"]` — yet the pipeline's record carries price `["0.00"]`:
the reconstruction, not the candidate's parse, is returned. -/
theorem c2_counterexample :
    findFenced scenarioText.length scenarioText = [scenarioBlock] ∧
    parseJson (stripWs scenarioBlock) = some (Json.jobj scenarioInputFields) ∧
    jarrStrs (jlookup (("prod_price_value").toList) scenarioInputFields) =
      some [("4.5").toList] ∧
    jarrStrs (jlookup (("prod_price_value").toList)
      (jfields (extract_json_from_text scenarioText))) = some [("0.00").toList] ∧
    (some [("0.00").toList] : Option (List (List Char))) ≠ some [("4.5").toList] :=
  ⟨by rfl, by rfl, by rfl, by rfl, by decide⟩

/-- C2 (amended): reconstruction runs first, not last.  For every nonempty
input the reconstruction's dictionary serializes and re-parses
successfully, so `extract_json_from_text` returns it and the candidate
search over fenced blocks and brace spans is unreachable. -/
theorem c2_reconstruction_first (text : List Char) (h : text ≠ []) :
    extract_json_from_text text = Json.jobj (reconstruct_malformed_json text) :=
  extract_eq_reconstruct text h

/-- Witness of `c2_reconstruction_first` at the scenario text. -/
theorem c2_reconstruction_first_witness :
    scenarioText ≠ [] ∧
    extract_json_from_text scenarioText =
      Json.jobj (reconstruct_malformed_json scenarioText) :=
  ⟨by decide, c2_reconstruction_first scenarioText (by decide)⟩

/-! ### Claim C3 — the end-to-end scenario -/

/-- C3 counterexample.  The claim says all three product arrays survive
unchanged, in particular `prod_price_value = ["4.5"]`; the pipeline
returns `["0.00"]` there. -/
theorem c3_counterexample :
    jarrStrs (jlookup (("prod_price_value").toList)
      (jfields (post_process_prediction scenarioText))) = some [("0.00").toList] ∧
    (some [("0.00").toList] : Option (List (List Char))) ≠ some [("4.5").toList] :=
  ⟨by rfl, by decide⟩

/-- C3 (amended): on the scenario text the final normalized record has
`date_value = "05/05/2025"`, `store_name_value = "WOOLWORTHS"`,
`tax_value = "12.80"`, `total_value = "140.90"`, the item and quantity
arrays as in the input, and the price array replaced by the placeholder
`["0.00"]`. -/
theorem c3_normalized_record :
    post_process_prediction scenarioText = Json.jobj scenarioResultFields := by
  rfl

/-! ### Claim C5 — `normalize_number` on `"1,234.50"` -/

/-- C5 counterexample: `normalize_number "1,234.50"` is `"1.23"`, not the
claimed `"1234.50"`. -/
theorem c5_counterexample :
    normalize_number (("1,234.50").toList) = ("1.23").toList ∧
    ("1.23").toList ≠ ("1234.50").toList :=
  ⟨by rfl, by decide⟩

/-- C5 (amended): the comma of a raw value is treated as an alternate
decimal separator, not as a thousands separator to delete: after the
comma of `"1,234.50"` becomes a period, the remaining digit groups are
concatenated behind the first decimal point and rounded to two places,
giving `"1.23"`; a lone comma likewise becomes the decimal point
(`"12,5"` gives `"12.50"`). -/
theorem c5_comma_is_decimal_separator :
    normalize_number (("1,234.50").toList) = ("1.23").toList ∧
    normalize_number (("12,5").toList) = ("12.50").toList :=
  ⟨by rfl, by rfl⟩

/-! ### Claim C7 — brace/bracket balancing appends at most one closer -/

/-- C7 counterexample: on `"{{"` the repairer appends a single `'}'`,
leaving the brace counts unbalanced, contrary to the claim that all
missing closers are appended. -/
theorem c7_counterexample :
    ultra_clean_json (("\x7b\x7b").toList) = ("\x7b\x7b\x7d").toList ∧
    ¬ ((("\x7b\x7b\x7d").toList).count '\x7b' =
        (("\x7b\x7b\x7d").toList).count '\x7d') :=
  ⟨by decide, by decide⟩

/-- C7 (amended): the balancing step appends at most one closing brace and
one closing bracket: the open/close deficit of each kind drops by exactly
one (to a floor of zero), so the repaired text is balanced only when at
most one closer of each kind was missing. -/
theorem c7_single_closer_appended (s : List Char) :
    (ultra_clean_json s).count '\x7b' - (ultra_clean_json s).count '\x7d' =
      ((preBalance s).count '\x7b' - (preBalance s).count '\x7d') - 1 ∧
    (ultra_clean_json s).count '[' - (ultra_clean_json s).count ']' =
      ((preBalance s).count '[' - (preBalance s).count ']') - 1 := by
  unfold ultra_clean_json closeBrackets closeBraces
  constructor <;> split <;> split <;>
    simp_all [List.count_append, List.count_cons, List.count_nil] <;> omega

/-! ### Claims C1 and C10 — what reconstruction does to field values -/

theorem default_mem_str (key v : List Char)
    (h : (key, Json.jstr v) ∈ default_json) : v = [] := by
  simp only [default_json, List.mem_cons, List.not_mem_nil, or_false] at h
  rcases h with h | h | h | h | h | h | h <;> injection h with ha hb
  · injection hb
  · injection hb
  · injection hb
  · injection hb
  · exact Json.noConfusion hb
  · exact Json.noConfusion hb
  · exact Json.noConfusion hb

theorem reconstructArrays_lookup_scalar (text : List Char)
    (d : List (List Char × Json)) (f : List Char) (hf : f ∈ scalarFieldNames) :
    jlookup f (reconstructArrays text d) = jlookup f d := by
  unfold reconstructArrays
  rcases findArrayContent text.length text with _ | content
  · rfl
  · simp only
    by_cases hitems : (findQuoted content.length content).isEmpty
    · rw [if_pos hitems]
    · rw [if_neg hitems]
      fin_cases hf <;>
        rw [jlookup_dinsert_ne _ _ _ _ (by decide),
          jlookup_dinsert_ne _ _ _ _ (by decide),
          jlookup_dinsert_ne _ _ _ _ (by decide)]

/-- C1 counterexample.  The scenario text is a fenced block whose content
is valid JSON with the seven canonical fields, yet the pipeline's record
differs from it: the tax value loses its `'$'` and the price array is
replaced by `["0.00"]`.  (Round-trip identity fails.) -/
theorem c1_counterexample :
    parseJson (stripWs scenarioBlock) = some (Json.jobj scenarioInputFields) ∧
    jstrOf (jlookup (("tax_value").toList) scenarioInputFields) =
      some (("$12.8").toList) ∧
    jstrOf (jlookup (("tax_value").toList)
      (jfields (extract_json_from_text scenarioText))) = some (("12.8").toList) ∧
    (some (("12.8").toList) : Option (List Char)) ≠ some (("$12.8").toList) ∧
    jarrStrs (jlookup (("prod_price_value").toList)
      (jfields (extract_json_from_text scenarioText))) = some [("0.00").toList] ∧
    (some [("0.00").toList] : Option (List (List Char))) ≠ some [("4.5").toList] :=
  ⟨by rfl, by rfl, by rfl, by decide, by rfl, by decide⟩

/-- C1 (amended): the pipeline never round-trips the quantity and price
arrays — whatever the input text (valid JSON or not), every quantity the
returned record carries is the placeholder `"1"` and every price the
placeholder `"0.00"` (the arrays are empty otherwise). -/
theorem c1_arrays_never_roundtrip (text : List Char) (qs ps : List Json)
    (hq : jlookup (("prod_quantity_value").toList)
      (jfields (extract_json_from_text text)) = some (Json.jarr qs))
    (hp : jlookup (("prod_price_value").toList)
      (jfields (extract_json_from_text text)) = some (Json.jarr ps)) :
    (∀ q ∈ qs, q = Json.jstr (("1").toList)) ∧
    (∀ p ∈ ps, p = Json.jstr (("0.00").toList)) := by
  cases text with
  | nil =>
    have hq2 : (some (Json.jarr ([] : List Json)) : Option Json) =
        some (Json.jarr qs) := hq
    have hp2 : (some (Json.jarr ([] : List Json)) : Option Json) =
        some (Json.jarr ps) := hp
    injection hq2 with hq2
    injection hq2 with hq2
    injection hp2 with hp2
    injection hp2 with hp2
    constructor
    · intro q hmem; rw [← hq2] at hmem; exact absurd hmem (List.not_mem_nil q)
    · intro p hmem; rw [← hp2] at hmem; exact absurd hmem (List.not_mem_nil p)
  | cons c t =>
    rw [extract_eq_reconstruct (c :: t) (by simp)] at hq hp
    have hq3 := reconstruct_array_lookup (c :: t) _ (Or.inl rfl) qs hq
    have hp3 := reconstruct_array_lookup (c :: t) _ (Or.inr rfl) ps hp
    constructor
    · rcases hq3 with h | ⟨n, elt, hrep, helt, _⟩
      · intro q hmem; rw [h] at hmem; exact absurd hmem (List.not_mem_nil q)
      · intro q hmem
        rw [hrep] at hmem
        rw [List.eq_of_mem_replicate hmem, helt rfl]
    · rcases hp3 with h | ⟨n, elt, hrep, _, helt⟩
      · intro p hmem; rw [h] at hmem; exact absurd hmem (List.not_mem_nil p)
      · intro p hmem
        rw [hrep] at hmem
        rw [List.eq_of_mem_replicate hmem, helt rfl]

/-- Witness of `c1_arrays_never_roundtrip` at the scenario text. -/
theorem c1_arrays_never_roundtrip_witness :
    (∀ q ∈ [Json.jstr (("1").toList)], q = Json.jstr (("1").toList)) ∧
    (∀ p ∈ [Json.jstr (("0.00").toList)], p = Json.jstr (("0.00").toList)) :=
  c1_arrays_never_roundtrip scenarioText
    [Json.jstr (("1").toList)] [Json.jstr (("0.00").toList)] (by rfl) (by rfl)

/-- C10: whenever the pipeline's record carries a string at one of the
four scalar fields, that string contains only word characters, whitespace,
`'/'`, `'.'` and `'-'` — the reconstruction stage's value filter deletes
every other character, and it runs on every input, valid JSON included. -/
theorem c10_scalar_value_filter (text : List Char) (f v : List Char)
    (hf : f ∈ scalarFieldNames)
    (hv : jlookup f (jfields (extract_json_from_text text)) = some (Json.jstr v)) :
    ∀ c ∈ v, allowedValueChar c = true := by
  cases text with
  | nil =>
    revert hv
    fin_cases hf <;> intro hv <;>
      (first
        | (have hv2 : (some (Json.jstr ([] : List Char)) : Option Json) =
              some (Json.jstr v) := hv
           injection hv2 with hv2
           injection hv2 with hv2
           intro c hc
           rw [← hv2] at hc
           exact absurd hc (List.not_mem_nil c)))
  | cons c0 t =>
    rw [extract_eq_reconstruct (c0 :: t) (by simp)] at hv
    unfold reconstruct_malformed_json at hv
    rcases jlookup_ensure_inv default_json f (Json.jstr v) _ hv with h1 | h2
    · rw [reconstructArrays_lookup_scalar _ _ f hf] at h1
      rcases jlookup_insertScalars_str f v _ [] h1 with ⟨raw, hraw⟩ | h3
      · rw [hraw]; exact cleanValue_chars raw
      · exact absurd h3 (by simp [jlookup])
    · rw [default_mem_str f v h2]
      intro c hc
      exact absurd hc (List.not_mem_nil c)

/-- Witness of `c10_scalar_value_filter` at the scenario text's tax
field. -/
theorem c10_scalar_value_filter_witness :
    jlookup (("tax_value").toList) (jfields (extract_json_from_text scenarioText)) =
      some (Json.jstr (("12.8").toList)) ∧
    (("12.8").toList).all allowedValueChar = true :=
  ⟨by rfl, List.all_eq_true.mpr
    (c10_scalar_value_filter scenarioText (("tax_value").toList)
      (("12.8").toList) (by simp [scalarFieldNames]) (by rfl))⟩

/-! ### Claim C4 — totality and the default record -/

theorem reconstruct_has_key (text k : List Char)
    (hk : ∃ v, (k, v) ∈ default_json) :
    (jlookup k (reconstruct_malformed_json text)).isSome = true := by
  unfold reconstruct_malformed_json
  exact jlookup_ensure_isSome default_json k _ (Or.inl hk)

/-- C4: for every input text the pipeline returns a record carrying all
seven canonical keys, and on empty or completely unstructured text
(`"hello world"`) it returns the default record with every field
empty. -/
theorem c4_seven_keys_and_default :
    (∀ text : List Char, hasSevenKeys (post_process_prediction text) = true) ∧
    post_process_prediction [] = Json.jobj default_json ∧
    post_process_prediction (("hello world").toList) = Json.jobj default_json := by
  refine ⟨?_, by rfl, by rfl⟩
  intro text
  cases text with
  | nil => rfl
  | cons c0 t =>
    have hdate : (jlookup (("date_value").toList)
        (reconstruct_malformed_json (c0 :: t))).isSome = true :=
      reconstruct_has_key _ _ ⟨Json.jstr [], by simp [default_json]⟩
    unfold post_process_prediction
    rw [extract_eq_reconstruct (c0 :: t) (by simp)]
    cases hrec : reconstruct_malformed_json (c0 :: t) with
    | nil => rw [hrec] at hdate; exact absurd hdate (by simp [jlookup])
    | cons kv rest =>
      simp only
      rw [← hrec]
      simp only [hasSevenKeys, canonicalKeys, List.all_cons, List.all_nil,
        Bool.and_true, Bool.and_eq_true, jfields]
      refine ⟨?_, ?_, ?_, ?_, ?_, ?_, ?_⟩ <;>
        rw [jlookup_updateField_isSome, jlookup_updateField_isSome,
          jlookup_updateField_isSome, jlookup_updateField_isSome]
      · exact reconstruct_has_key _ _ ⟨Json.jstr [], by simp [default_json]⟩
      · exact reconstruct_has_key _ _ ⟨Json.jstr [], by simp [default_json]⟩
      · exact reconstruct_has_key _ _ ⟨Json.jstr [], by simp [default_json]⟩
      · exact reconstruct_has_key _ _ ⟨Json.jstr [], by simp [default_json]⟩
      · exact reconstruct_has_key _ _ ⟨Json.jarr [], by simp [default_json]⟩
      · exact reconstruct_has_key _ _ ⟨Json.jarr [], by simp [default_json]⟩
      · exact reconstruct_has_key _ _ ⟨Json.jarr [], by simp [default_json]⟩

/-! ### Claim C8 — `normalize_date` time stripping -/

theorem takeWhile_append_sat (p : Char → Bool) (d tl : List Char) (c : Char)
    (hd : ∀ x ∈ d, p x = true) (hc : p c = false) :
    (d ++ c :: tl).takeWhile p = d := by
  induction d with
  | nil => simp [List.takeWhile_cons, hc]
  | cons a t ih =>
    have ha : p a = true := hd a (List.mem_cons_self a t)
    simp only [List.cons_append, List.takeWhile_cons, ha, if_true]
    rw [ih fun x hx => hd x (List.mem_cons_of_mem a hx)]

/-- C8 counterexample: on `"14:30 15/06/2024"` — a date string with a
space, a leading clock-time-looking token and no month name — the code
keeps the clock-time token `"14:30"` and drops the date, so the parsed
remainder is not the date portion the claim promises. -/
theorem c8_counterexample :
    (("14:30 15/06/2024").toList).contains ' ' = true ∧
    looksLikeClockTime
      ((("14:30 15/06/2024").toList).takeWhile (fun c => !(c = ' '))) = true ∧
    hasMonthToken (("14:30 15/06/2024").toList) = false ∧
    datePreprocess (("14:30 15/06/2024").toList) = ("14:30").toList ∧
    ("14:30").toList ≠ ("15/06/2024").toList :=
  ⟨by rfl, by rfl, by rfl, by rfl, by decide⟩

/-- C8 (amended): when a date string with no month-name fragment has the
form `d ++ " " ++ t` with `d` space-free, `normalize_date` parses exactly
`d`, the part before the first space — a trailing clock time is thereby
stripped, but a leading clock time is kept and the date after it is
dropped. -/
theorem c8_first_token_kept (d tl : List Char)
    (hd : ∀ x ∈ d, x ≠ ' ')
    (hm : hasMonthToken (d ++ ' ' :: tl) = false) :
    datePreprocess (d ++ ' ' :: tl) = d := by
  unfold datePreprocess
  have hsp : (d ++ ' ' :: tl).contains ' ' = true :=
    List.elem_iff.mpr (List.mem_append_right d (List.mem_cons_self ' ' tl))
  rw [hsp, hm]
  simp only [Bool.not_false, Bool.and_true, if_true]
  exact takeWhile_append_sat _ d tl ' '
    (fun x hx => by simp [hd x hx]) (by simp)

/-- Witness of `c8_first_token_kept` on a date-then-time string. -/
theorem c8_first_token_kept_witness :
    datePreprocess ((("15/06/2024").toList) ++ ' ' :: ("14:30").toList) =
      ("15/06/2024").toList :=
  c8_first_token_kept (("15/06/2024").toList) (("14:30").toList)
    (by decide) (by rfl)

/-! ### Claim C9 — idempotence of `normalize_number` -/

theorem digitChar_digit (n : Nat) (h : n < 10) : isDigitC (digitChar n) = true := by
  interval_cases n <;> decide

theorem digitChar_val (n : Nat) (h : n < 10) : (digitChar n).toNat - 48 = n := by
  interval_cases n <;> decide

theorem natDigitsAux_digits (fuel : Nat) :
    ∀ n, ∀ c ∈ natDigitsAux fuel n, isDigitC c = true := by
  induction fuel with
  | zero => intro n c hc; exact absurd hc (List.not_mem_nil c)
  | succ fuel ih =>
    intro n c hc
    rw [natDigitsAux] at hc
    by_cases h : n < 10
    · rw [if_pos h] at hc
      rcases List.mem_singleton.mp hc with rfl
      exact digitChar_digit n h
    · rw [if_neg h] at hc
      rcases List.mem_append.mp hc with hc | hc
      · exact ih _ c hc
      · rcases List.mem_singleton.mp hc with rfl
        exact digitChar_digit _ (Nat.mod_lt n (by omega))

theorem natDigits_digits (n : Nat) : ∀ c ∈ natDigits n, isDigitC c = true :=
  natDigitsAux_digits (n + 1) n

theorem natDigitsAux_ne_nil (fuel n : Nat) (h : 0 < fuel) :
    natDigitsAux fuel n ≠ [] := by
  cases fuel with
  | zero => omega
  | succ fuel =>
    rw [natDigitsAux]
    by_cases h2 : n < 10
    · rw [if_pos h2]; simp
    · rw [if_neg h2]; simp

theorem natDigits_ne_nil (n : Nat) : natDigits n ≠ [] :=
  natDigitsAux_ne_nil (n + 1) n (by omega)

theorem digitsToNat_shift (B : List Char) : ∀ a : Nat,
    B.foldl (fun x c => x * 10 + (c.toNat - 48)) a =
      a * 10 ^ B.length + B.foldl (fun x c => x * 10 + (c.toNat - 48)) 0 := by
  induction B with
  | nil => intro a; simp
  | cons c t ih =>
    intro a
    simp only [List.foldl_cons, List.length_cons]
    rw [ih (a * 10 + (c.toNat - 48)), ih (0 * 10 + (c.toNat - 48))]
    rw [pow_succ]
    ring

theorem digitsToNat_append (A B : List Char) :
    digitsToNat (A ++ B) = digitsToNat A * 10 ^ B.length + digitsToNat B := by
  unfold digitsToNat
  rw [List.foldl_append, digitsToNat_shift B (List.foldl _ 0 A)]

theorem digitsToNat_natDigitsAux (fuel : Nat) :
    ∀ n, n < fuel → digitsToNat (natDigitsAux fuel n) = n := by
  induction fuel with
  | zero => intro n h; omega
  | succ fuel ih =>
    intro n h
    rw [natDigitsAux]
    by_cases h2 : n < 10
    · rw [if_pos h2]
      show 0 * 10 + ((digitChar n).toNat - 48) = n
      rw [digitChar_val n h2]; omega
    · rw [if_neg h2]
      rw [digitsToNat_append]
      have hdiv : n / 10 < fuel :=
        Nat.lt_of_lt_of_le (Nat.div_lt_self (by omega) (by omega)) (by omega)
      rw [ih _ hdiv]
      show n / 10 * 10 ^ 1 + (0 * 10 + ((digitChar (n % 10)).toNat - 48)) = n
      rw [digitChar_val _ (Nat.mod_lt n (by omega))]
      omega

theorem digitsToNat_natDigits (n : Nat) : digitsToNat (natDigits n) = n :=
  digitsToNat_natDigitsAux (n + 1) n (by omega)

theorem pad2_digits (m : Nat) : ∀ c ∈ pad2 m, isDigitC c = true := by
  intro c hc
  unfold pad2 at hc
  by_cases h : m < 10
  · rw [if_pos h] at hc
    rcases List.mem_cons.mp hc with rfl | hc
    · decide
    · rcases List.mem_singleton.mp hc with rfl
      exact digitChar_digit m h
  · rw [if_neg h] at hc
    exact natDigits_digits m c hc

theorem pad2_value (m : Nat) (_h : m < 100) : digitsToNat (pad2 m) = m := by
  unfold pad2
  by_cases h2 : m < 10
  · rw [if_pos h2]
    unfold digitsToNat
    simp only [List.foldl_cons, List.foldl_nil]
    rw [digitChar_val m h2]
    have h48 : ('0').toNat = 48 := rfl
    rw [h48]
    omega
  · rw [if_neg h2]
    exact digitsToNat_natDigits m

theorem pad2_length (m : Nat) (h : m < 100) : (pad2 m).length = 2 := by
  unfold pad2
  by_cases h2 : m < 10
  · rw [if_pos h2]; rfl
  · rw [if_neg h2]
    unfold natDigits
    obtain ⟨k, rfl⟩ : ∃ k, m = k + 10 := ⟨m - 10, by omega⟩
    rw [natDigitsAux, if_neg (by omega)]
    rw [natDigitsAux]
    · rw [if_pos (by omega)]
      rfl

theorem isDigitC_ne_dot (c : Char) (h : isDigitC c = true) : ¬ c = '.' := by
  intro hc
  rw [hc] at h
  exact absurd h (by decide)

theorem isDigitC_ne_comma (c : Char) (h : isDigitC c = true) : ¬ c = ',' := by
  intro hc
  rw [hc] at h
  exact absurd h (by decide)

theorem takeWhile_all (p : Char → Bool) (l : List Char)
    (h : ∀ c ∈ l, p c = true) : l.takeWhile p = l := by
  induction l with
  | nil => rfl
  | cons c t ih =>
    rw [List.takeWhile_cons, if_pos (h c (List.mem_cons_self c t))]
    rw [ih fun x hx => h x (List.mem_cons_of_mem c hx)]

theorem findNumRun_full (l : List Char) (hne : l ≠ [])
    (h : ∀ c ∈ l, isNumRunC c = true) : findNumRun l = some l := by
  cases l with
  | nil => exact absurd rfl hne
  | cons c t =>
    rw [findNumRun, if_pos (h c (List.mem_cons_self c t))]
    rw [takeWhile_all isNumRunC t fun x hx => h x (List.mem_cons_of_mem c hx)]

theorem map_nocomma (l : List Char) (h : ∀ c ∈ l, ¬ c = ',') :
    (l.map fun c => if c = ',' then '.' else c) = l := by
  induction l with
  | nil => rfl
  | cons c t ih =>
    rw [List.map_cons, if_neg (h c (List.mem_cons_self c t))]
    rw [ih fun x hx => h x (List.mem_cons_of_mem c hx)]

theorem splitOnC_no_sep (sep : Char) (l : List Char) (h : ∀ c ∈ l, ¬ c = sep) :
    splitOnC sep l = [l] := by
  induction l with
  | nil => rfl
  | cons c t ih =>
    rw [splitOnC, if_neg (h c (List.mem_cons_self c t))]
    rw [ih fun x hx => h x (List.mem_cons_of_mem c hx)]

theorem splitOnC_single_sep (sep : Char) (A B : List Char)
    (hA : ∀ c ∈ A, ¬ c = sep) (hB : ∀ c ∈ B, ¬ c = sep) :
    splitOnC sep (A ++ sep :: B) = [A, B] := by
  induction A with
  | nil =>
    rw [List.nil_append, splitOnC, if_pos rfl, splitOnC_no_sep sep B hB]
  | cons c t ih =>
    rw [List.cons_append, splitOnC, if_neg (hA c (List.mem_cons_self c t))]
    rw [ih fun x hx => hA x (List.mem_cons_of_mem c hx)]

theorem rhe_mul (k b : Nat) (hb : 0 < b) : rhe (k * b) b = k := by
  unfold rhe
  rw [Nat.mul_div_cancel k hb, Nat.mul_mod_left]
  rw [if_pos (by omega)]

/-- The canonical two-decimal outputs of `format2f` are fixed points of
`normalize_number`. -/
theorem normalize_number_fixed (q m : Nat) (hm : m < 100) :
    normalize_number (natDigits q ++ '.' :: pad2 m) =
      natDigits q ++ '.' :: pad2 m := by
  have hA : ∀ c ∈ natDigits q, isDigitC c = true := natDigits_digits q
  have hB : ∀ c ∈ pad2 m, isDigitC c = true := pad2_digits m
  have hall : ∀ c ∈ natDigits q ++ '.' :: pad2 m, isNumRunC c = true := by
    intro c hc
    rcases List.mem_append.mp hc with hc | hc
    · unfold isNumRunC; rw [hA c hc]; rfl
    · rcases List.mem_cons.mp hc with rfl | hc
      · rfl
      · unfold isNumRunC; rw [hB c hc]; rfl
  have hne : natDigits q ++ '.' :: pad2 m ≠ [] := by
    intro hcon
    exact natDigits_ne_nil q (List.append_eq_nil.mp hcon).1
  have hcoll : collapseRun (natDigits q ++ '.' :: pad2 m) =
      natDigits q ++ '.' :: pad2 m := by
    unfold collapseRun
    simp only
    rw [map_nocomma _ (by
      intro c hc
      rcases List.mem_append.mp hc with hc | hc
      · exact isDigitC_ne_comma c (hA c hc)
      · rcases List.mem_cons.mp hc with rfl | hc
        · decide
        · exact isDigitC_ne_comma c (hB c hc))]
    rw [splitOnC_single_sep '.' (natDigits q) (pad2 m)
      (fun c hc => isDigitC_ne_dot c (hA c hc))
      (fun c hc => isDigitC_ne_dot c (hB c hc))]
    simp
  have hparse : parseFloatDigits (natDigits q ++ '.' :: pad2 m) =
      some (q * 100 + m, 2) := by
    unfold parseFloatDigits
    rw [splitOnC_single_sep '.' (natDigits q) (pad2 m)
      (fun c hc => isDigitC_ne_dot c (hA c hc))
      (fun c hc => isDigitC_ne_dot c (hB c hc))]
    simp only
    rw [if_neg (by
      intro hcon
      rcases (Bool.and_eq_true _ _).mp hcon with ⟨h1, _⟩
      exact natDigits_ne_nil q (List.isEmpty_iff.mp h1))]
    rw [digitsToNat_append, digitsToNat_natDigits, pad2_value m hm,
      pad2_length m hm]
    rfl
  unfold normalize_number
  rw [if_neg (by
    intro hcon
    exact hne (List.isEmpty_iff.mp hcon))]
  rw [findNumRun_full _ hne hall]
  simp only
  rw [hcoll, hparse]
  simp only
  unfold format2f
  rw [show (10 : Nat) ^ 2 = 100 from rfl, rhe_mul (q * 100 + m) 100 (by omega)]
  have hdiv : (q * 100 + m) / 100 = q := by omega
  have hmod : (q * 100 + m) % 100 = m := by omega
  rw [hdiv, hmod]

/-- `normalize_number` is idempotent (on every input, in particular on
digit-containing ones): the failure paths return the input unchanged and
the success path's two-decimal outputs are fixed points. -/
theorem normalize_number_idem (x : List Char) :
    normalize_number (normalize_number x) = normalize_number x := by
  by_cases hx : x.isEmpty
  · have hxe : x = [] := List.isEmpty_iff.mp hx
    subst hxe
    rfl
  · rcases hrun : findNumRun x with _ | run
    · have hy : normalize_number x = x := by
        unfold normalize_number
        rw [if_neg hx, hrun]
      rw [hy]
      exact hy
    · rcases hpf : parseFloatDigits (collapseRun run) with _ | Df
      · have hy : normalize_number x = x := by
          unfold normalize_number
          rw [if_neg hx, hrun]
          simp only
          rw [hpf]
        rw [hy]
        exact hy
      · have hy : normalize_number x = format2f Df.1 Df.2 := by
          unfold normalize_number
          rw [if_neg hx, hrun]
          simp only
          rw [hpf]
        rw [hy]
        unfold format2f
        exact normalize_number_fixed _ _ (Nat.mod_lt _ (by omega))

/-- C9: `normalize_number` is idempotent on numeric-looking input: for
every text containing a digit,
`normalize_number (normalize_number x) = normalize_number x`. -/
theorem c9_normalize_number_idempotent (x : List Char)
    (_h : containsDigit x = true) :
    normalize_number (normalize_number x) = normalize_number x :=
  normalize_number_idem x

/-- Witness of `c9_normalize_number_idempotent` at `"1,234.50"`. -/
theorem c9_normalize_number_idempotent_witness :
    containsDigit (("1,234.50").toList) = true ∧
    normalize_number (normalize_number (("1,234.50").toList)) =
      normalize_number (("1,234.50").toList) :=
  ⟨by rfl, c9_normalize_number_idempotent (("1,234.50").toList) (by rfl)⟩

/-! ### Claim C6 — is structural repair the identity on valid JSON? -/

theorem sanitizeChar_id (c : Char) (h1 : 32 ≤ c.toNat) (h2 : c.toNat ≠ 127) :
    sanitizeChar c = c := by
  unfold sanitizeChar
  rw [if_neg (by omega), if_neg h2]

theorem sanitizeText_id (s : List Char)
    (h : ∀ c ∈ s, 32 ≤ c.toNat ∧ c.toNat ≠ 127) : sanitizeText s = s := by
  unfold sanitizeText
  induction s with
  | nil => rfl
  | cons c t ih =>
    rw [List.map_cons,
      sanitizeChar_id c (h c (List.mem_cons_self c t)).1
        (h c (List.mem_cons_self c t)).2,
      ih fun x hx => h x (List.mem_cons_of_mem c hx)]

theorem substAux_id (m : List Char → Option (List Char × List Char)) :
    ∀ (fuel : Nat) (s : List Char), (∀ u, u <:+ s → m u = none) →
      substAux m fuel s = s := by
  intro fuel
  induction fuel with
  | zero => intro s _; rfl
  | succ fuel ih =>
    intro s h
    cases s with
    | nil => rfl
    | cons c t =>
      rw [substAux, h (c :: t) (List.suffix_refl _)]
      rw [ih t fun u hu => h u (hu.trans (List.suffix_cons c t))]

theorem subst_id (m : List Char → Option (List Char × List Char))
    (s : List Char) (h : ∀ u, u <:+ s → m u = none) : subst m s = s :=
  substAux_id m s.length s h

theorem wsNl_none (u : List Char) (h : ∀ c ∈ u, ¬ c = '\n') : wsNl u = none := by
  unfold wsNl
  rw [if_neg ?_]
  intro hcon
  exact h '\n'
    ((List.takeWhile_sublist isPySpace).subset (List.elem_iff.mp hcon)) rfl

theorem lazyComma_none (term : List Char → Option (List Char × List Char))
    (hterm : ∀ u, (∀ c ∈ u, ¬ c = '\n') → term u = none) :
    ∀ t, (∀ c ∈ t, ¬ c = '\n') → lazyComma term t = none := by
  intro t
  induction t with
  | nil => intro _; rfl
  | cons c u ih =>
    intro h
    have hu : ∀ x ∈ u, ¬ x = '\n' := fun x hx => h x (List.mem_cons_of_mem c hx)
    rw [lazyComma]
    by_cases hq : c = '"'
    · rw [if_pos hq]
    · rw [if_neg hq]
      by_cases hcm : c = ','
      · rw [if_pos hcm, hterm u hu, ih hu]
      · rw [if_neg hcm, ih hu]

theorem termR1_none (w : List Char) (hw : ∀ c ∈ w, ¬ c = '\n') :
    termR1 w = none := by
  unfold termR1
  rw [wsNl_none w hw]

theorem termR2_none (w : List Char) (hw : ∀ c ∈ w, ¬ c = '\n') :
    termR2 w = none := by
  unfold termR2
  rw [wsNl_none w hw]

theorem termR3_none (w : List Char) (hw : ∀ c ∈ w, ¬ c = '\n') :
    termR3 w = none := by
  unfold termR3
  rw [wsNl_none w hw]

theorem termR4_none (w : List Char) (hw : ∀ c ∈ w, ¬ c = '\n') :
    termR4 w = none := by
  unfold termR4
  rw [wsNl_none w hw]

theorem matchR1At_none (u : List Char) (h : ∀ c ∈ u, ¬ c = '\n') :
    matchR1At u = none := by
  cases u with
  | nil => rfl
  | cons c t =>
    rw [matchR1At]
    by_cases hq : c = '"'
    · rw [if_pos hq,
        lazyComma_none termR1 termR1_none t
          fun x hx => h x (List.mem_cons_of_mem c hx)]
    · rw [if_neg hq]

theorem matchR2At_none (u : List Char) (h : ∀ c ∈ u, ¬ c = '\n') :
    matchR2At u = none := by
  cases u with
  | nil => rfl
  | cons c t =>
    rw [matchR2At]
    by_cases hq : c = '"'
    · rw [if_pos hq,
        lazyComma_none termR2 termR2_none t
          fun x hx => h x (List.mem_cons_of_mem c hx)]
    · rw [if_neg hq]

theorem matchR3At_none (u : List Char) (h : ∀ c ∈ u, ¬ c = '\n') :
    matchR3At u = none := by
  cases u with
  | nil => rfl
  | cons c t =>
    rw [matchR3At]
    by_cases hq : c = '"'
    · rw [if_pos hq,
        lazyComma_none termR3 termR3_none t
          fun x hx => h x (List.mem_cons_of_mem c hx)]
    · rw [if_neg hq]

theorem matchR4At_none (u : List Char) (h : ∀ c ∈ u, ¬ c = '\n') :
    matchR4At u = none := by
  cases u with
  | nil => rfl
  | cons c t =>
    rw [matchR4At]
    by_cases hq : c = '"'
    · rw [if_pos hq,
        lazyComma_none termR4 termR4_none t
          fun x hx => h x (List.mem_cons_of_mem c hx)]
    · rw [if_neg hq]

theorem termR5_none (w : List Char) (hw : ∀ c ∈ w, ¬ c = '\n') :
    termR5 w = none := by
  unfold termR5
  rw [wsNl_none w hw]

theorem lazyR5_none : ∀ (v : List Char), (∀ c ∈ v, ¬ c = '\n') →
    lazyR5 v = none := by
  intro v
  induction v with
  | nil => intro _; rfl
  | cons c u ih =>
    intro h
    rw [lazyR5, termR5_none (c :: u) h]
    by_cases hq : c = '"'
    · rw [if_pos hq]
    · rw [if_neg hq, ih fun x hx => h x (List.mem_cons_of_mem c hx)]

theorem matchR5At_none (u : List Char) (h : ∀ c ∈ u, ¬ c = '\n') :
    matchR5At u = none := by
  cases u with
  | nil => rfl
  | cons c t =>
    rw [matchR5At]
    by_cases hc : c = ':'
    · rw [if_pos hc]
      have ht : ∀ x ∈ t.dropWhile isPySpace, ¬ x = '\n' := fun x hx =>
        h x (List.mem_cons_of_mem c ((List.dropWhile_sublist isPySpace).subset hx))
      cases hd : t.dropWhile isPySpace with
      | nil => rfl
      | cons c2 u2 =>
        have hu2 : ∀ x ∈ u2, ¬ x = '\n' := by
          intro x hx
          refine ht x ?_
          rw [hd]
          exact List.mem_cons_of_mem c2 hx
        simp only
        by_cases hq : c2 = '"'
        · rw [if_pos hq, termR5_none u2 hu2, lazyR5_none u2 hu2]
        · rw [if_neg hq]
    · rw [if_neg hc]

theorem matchR6At_none (u : List Char) (h : ∀ c ∈ u, ¬ c = '\n') :
    matchR6At u = none := by
  cases u with
  | nil => rfl
  | cons c1 t1 =>
    cases t1 with
    | nil => rfl
    | cons c2 t =>
      rw [matchR6At]
      by_cases h1 : c1 = '"'
      · rw [if_pos h1]
        by_cases h2 : c2 = ','
        · rw [if_pos h2, wsNl_none t fun x hx =>
            h x (List.mem_cons_of_mem c1 (List.mem_cons_of_mem c2 hx))]
        · rw [if_neg h2]
      · rw [if_neg h1]

theorem matchR7At_none (u : List Char) (h : ∀ c ∈ u, ¬ c = '\n') :
    matchR7At u = none := by
  cases u with
  | nil => rfl
  | cons c t =>
    rw [matchR7At]
    by_cases hc : c = ','
    · rw [if_pos hc, wsNl_none t fun x hx => h x (List.mem_cons_of_mem c hx)]
    · rw [if_neg hc]

theorem hasCommaCloser_suffix : ∀ (s u : List Char), u <:+ s →
    hasCommaCloser s = false → hasCommaCloser u = false := by
  intro s
  induction s with
  | nil =>
    intro u hu h
    rw [List.suffix_nil.mp hu]
    rfl
  | cons c t ih =>
    intro u hu h
    rcases List.suffix_cons_iff.mp hu with heq | htl
    · rw [heq]; exact h
    · refine ih u htl ?_
      rw [hasCommaCloser] at h
      exact (Bool.or_eq_false_iff.mp h).2

theorem matchR8At_none (u : List Char) (h : hasCommaCloser u = false) :
    matchR8At u = none := by
  cases u with
  | nil => rfl
  | cons c t =>
    rw [matchR8At]
    by_cases hc : c = ','
    · rw [if_pos hc]
      subst hc
      rw [hasCommaCloser] at h
      have h1 := (Bool.or_eq_false_iff.mp h).1
      rw [show (decide (',' = ',')) = true from by decide, Bool.true_and] at h1
      cases hd : t.dropWhile isPySpace with
      | nil => rfl
      | cons c2 r4 =>
        rw [hd] at h1
        simp only at h1 ⊢
        rw [if_neg ?_]
        intro hcon
        rw [hcon] at h1
        exact Bool.true_eq_false.mp h1
    · rw [if_neg hc]

theorem collapseSpaces_id : ∀ (s : List Char),
    hasSub (("  ").toList) s = false → collapseSpaces s = s := by
  intro s
  induction s with
  | nil => intro _; rfl
  | cons c t ih =>
    intro h
    have htail : hasSub (("  ").toList) t = false := by
      rw [hasSub] at h
      exact (Bool.or_eq_false_iff.mp h).2
    cases t with
    | nil => rfl
    | cons c2 u =>
      rw [collapseSpaces]
      rw [if_neg ?_]
      · rw [ih htail]
      · intro hcon
        rcases (Bool.and_eq_true _ _).mp hcon with ⟨hc1, hc2⟩
        simp only [decide_eq_true_eq] at hc1 hc2
        rw [hasSub] at h
        have hfirst := (Bool.or_eq_false_iff.mp h).1
        rw [hc1, hc2, show ("  ").toList = [' ', ' '] from rfl] at hfirst
        simp [startsWithL] at hfirst

/-- C6 counterexample: `{"a": "b  c"}` is valid JSON, but the repair chain
collapses its double space, altering already-correct text. -/
theorem c6_counterexample :
    parseJson (("\x7b\"a\": \"b  c\"\x7d").toList) =
      some (Json.jobj [(("a").toList, Json.jstr (("b  c").toList))]) ∧
    ultra_clean_json (("\x7b\"a\": \"b  c\"\x7d").toList) ≠
      ("\x7b\"a\": \"b  c\"\x7d").toList :=
  ⟨by rfl, by decide⟩

/-- C6 (amended): the repair chain is the identity only on restricted
text, valid JSON or not: no control characters or newlines, no two
consecutive spaces, no comma followed (up to spaces) by a closing brace
or bracket, and equal open/close brace and bracket counts.  On general
already-valid JSON it can alter the text, as `{"a": "b  c"}` shows. -/
theorem c6_repair_identity (s : List Char)
    (hclean : ∀ c ∈ s, 32 ≤ c.toNat ∧ c.toNat ≠ 127)
    (hspace : hasSub (("  ").toList) s = false)
    (hcomma : hasCommaCloser s = false)
    (hbrace : s.count '\x7b' = s.count '\x7d')
    (hbracket : s.count '[' = s.count ']') :
    ultra_clean_json s = s := by
  have hnl : ∀ c ∈ s, ¬ c = '\n' := by
    intro c hc hcon
    have h1 := (hclean c hc).1
    rw [hcon] at h1
    exact absurd h1 (by decide)
  have memsub : ∀ u : List Char, u <:+ s → ∀ c ∈ u, ¬ c = '\n' :=
    fun u hu c hc => hnl c (hu.sublist.subset hc)
  unfold ultra_clean_json preBalance
  rw [sanitizeText_id s hclean,
    subst_id matchR1At s (fun u hu => matchR1At_none u (memsub u hu)),
    subst_id matchR2At s (fun u hu => matchR2At_none u (memsub u hu)),
    subst_id matchR3At s (fun u hu => matchR3At_none u (memsub u hu)),
    subst_id matchR4At s (fun u hu => matchR4At_none u (memsub u hu)),
    subst_id matchR5At s (fun u hu => matchR5At_none u (memsub u hu)),
    subst_id matchR6At s (fun u hu => matchR6At_none u (memsub u hu)),
    subst_id matchR7At s (fun u hu => matchR7At_none u (memsub u hu)),
    subst_id matchR8At s
      (fun u hu => matchR8At_none u (hasCommaCloser_suffix s u hu hcomma)),
    collapseSpaces_id s hspace]
  unfold closeBraces closeBrackets
  rw [if_neg (show ¬ s.count '\x7d' < s.count '\x7b' by omega)]
  rw [if_neg (show ¬ s.count ']' < s.count '[' by omega)]

/-- Witness of `c6_repair_identity` at the valid JSON `{"a": "b c"}`. -/
theorem c6_repair_identity_witness :
    ultra_clean_json (("\x7b\"a\": \"b c\"\x7d").toList) =
      ("\x7b\"a\": \"b c\"\x7d").toList :=
  c6_repair_identity (("\x7b\"a\": \"b c\"\x7d").toList)
    (by decide) (by decide) (by decide) (by decide) (by decide)

end InternVL
